import Mathlib

/-!
Verification of the attribute-mutation engine of the CVAT video XML
attribute editor (`app.py`).

The engine (the `Apply changes` block of `app.py`) walks every `<track>`
of the parsed document; for each targeted track and each selected
attribute name it rewrites all track-level `<attribute>` children of the
matching name unconditionally, and rewrites box-level `<attribute>`
children only in boxes whose `frame` falls in the selected scope
(entire track / single range / multiple ranges).  It counts every write
and reports three counters.

The shallow embedding below mirrors that code: XML elements become
records, the per-(track, attribute) scope data becomes a `FramePredicate`
carried by a `Rule` (the per-track scopes of the UI correspond to rules
with singleton target sets; the global mode to rules targeting every
selected id), and the mutation loop becomes structural recursion over
the rule list and the track list.
-/

namespace CVAT

/-- An `<attribute>` element: its `name` XML attribute (absent names are
`none`, as `Element.get` returns `None` in the source) and its text
content (`attr.text`, the empty string when absent). -/
structure Attr where
  name : Option String
  value : String
deriving Repr, DecidableEq

/-- A `<box>` element: its raw `frame` XML attribute (kept as the raw
optional string, since the source parses it lazily with
`int(box.get("frame", "0"))`) and its `<attribute>` children. -/
structure Box where
  frame : Option String
  attrs : List Attr
deriving Repr, DecidableEq

/-- A `<track>` element: `id`, `label`, track-level `<attribute>`
children and `<box>` children, in document order. -/
structure Track where
  id : String
  label : String
  attrs : List Attr
  boxes : List Box
deriving Repr, DecidableEq

/-- The document, reduced to its ordered list of `<track>` elements
(`root.findall(".//track")`). -/
abbrev Doc := List Track

/-- The numeric value of a nonempty list of decimal digits; `none` when
the list is empty or holds a non-digit character. -/
def digitsVal? (cs : List Char) : Option Nat :=
  if cs = [] then none
  else if cs.all (fun c => c.isDigit) then
    some (cs.foldl (fun a c => 10 * a + (c.toNat - 48)) 0)
  else none

/-- Python `int()` on the strings that occur here: an optional sign
followed by decimal digits.  (Python's extra leniencies — surrounding
whitespace, underscores between digits — are not modelled; they do not
occur in CVAT `frame` attributes.) -/
def parseInt? (s : String) : Option Int :=
  match s.data with
  | '-' :: cs => (digitsVal? cs).map (fun n => -(n : Int))
  | '+' :: cs => (digitsVal? cs).map (fun n => (n : Int))
  | cs => (digitsVal? cs).map (fun n => (n : Int))

/-- The frame number of a box, per app.py lines 422-425:
`int(box.get("frame", "0"))` with `ValueError` mapped to `0` — a
missing `frame` reads `"0"`, an unparsable one falls back to `0`. -/
def frameIdx (b : Box) : Int :=
  (parseInt? (b.frame.getD ("0"))).getD 0

/-- The scope attached to one rule.  `allFrames`, `singleRange` and
`multiRange` are the three scopes of the current source
(`Entire track` / `Single frame range` / `Multiple frame ranges`).
`firstN` is the first-N-frames scope of the repository's earlier
revisions, absent from `app.py`; it is modelled from the spec below. -/
inductive FramePredicate where
  | allFrames
  | firstN (n : Nat)
  | singleRange (start stop : Nat)
  | multiRange (ranges : List (Nat × Nat))
deriving Repr, DecidableEq

/-- The range test of app.py lines 427-430:
`any(r["start"] <= frame_idx <= r["end"] for r in ranges)`. -/
def inRanges (rs : List (Nat × Nat)) (f : Int) : Bool :=
  rs.any (fun r => decide ((r.1 : Int) ≤ f ∧ f ≤ (r.2 : Int)))

/-- The stable-sort order on (original position, frame) pairs:
ascending by frame, ties broken by original position. -/
def rankLe (a b : Nat × Int) : Bool :=
  decide (a.2 < b.2 ∨ (a.2 = b.2 ∧ a.1 ≤ b.1))

/-- Insertion into a `rankLe`-sorted list. -/
def insertRanked (x : Nat × Int) : List (Nat × Int) → List (Nat × Int)
  | [] => [x]
  | y :: ys => if rankLe x y then x :: y :: ys else y :: insertRanked x ys

/-- Insertion sort by `rankLe`.  Since `rankLe` is a linear order (the
original position breaks every frame tie), this produces exactly the
stable ascending-by-frame ordering of the positions. -/
def sortRanked : List (Nat × Int) → List (Nat × Int)
  | [] => []
  | x :: xs => insertRanked x (sortRanked xs)

/-- Modelled from the spec: the first-N-frames scope is missing from
`app.py` (the scope radio at lines 208-213 offers only Entire track /
Single frame range / Multiple frame ranges).  Per the spec (§4.3), a box
matches `FirstN n` iff it belongs to the first `n` boxes of the track
after a stable ascending sort by frame.  Given the track's parsed frame
numbers in document order, `firstNIndices` returns the original
positions of those first `n` boxes. -/
def firstNIndices (frames : List Int) (n : Nat) : List Nat :=
  ((sortRanked ((List.range frames.length).zip frames)).take n).map (·.1)

/-- Does the box at position `i` of the track — whose parsed frame is
`f`, the track's parsed frames in document order being `frames` — fall
in the scope `p`?  Mirrors the `boxes_to_change` selection of app.py
lines 418-431: `allFrames` (i.e. `ranges is None`) selects every box;
a range scope selects the box iff its parsed frame lies in some range.
`firstN` is the spec-modelled rank-based variant.  Membership depends
only on the box's position and the parsed frame numbers. -/
def boxMatches (p : FramePredicate) (frames : List Int) (i : Nat) (f : Int) : Bool :=
  match p with
  | .allFrames => true
  | .firstN n => (firstNIndices frames n).contains i
  | .singleRange s e => inRanges [(s, e)] f
  | .multiRange rs => inRanges rs f

/-- One edit instruction: target track ids, attribute name, new value
and frame scope (spec §3 `Rule`; in the source, one selected attribute
name together with the selected track set and its scope widgets). -/
structure Rule where
  targets : List String
  attrName : String
  newVal : String
  pred : FramePredicate
deriving Repr, DecidableEq

/-- Rewrite one attribute when its name matches, per app.py lines
408-409 and 435-436: `if attr.get("name") == attr_name: attr.text =
new_val`. -/
def setAttr (n v : String) (a : Attr) : Attr :=
  if a.name = some n then ⟨a.name, v⟩ else a

/-- The attribute loop run on one element's children (app.py lines
407-411 at track level, 434-437 at box level): every child whose name
matches is rewritten. -/
def rewriteAttrs (n v : String) (attrs : List Attr) : List Attr :=
  attrs.map (setAttr n v)

/-- The `<attribute>` children of one element that carry the given
name. -/
def attrsNamed (n : String) (attrs : List Attr) : List Attr :=
  attrs.filter (fun a => a.name = some n)

/-- How many `<attribute>` children of one element carry the given
name: the number of writes the loops of app.py lines 407-411 and
434-437 perform on that element. -/
def countMatching (n : String) (attrs : List Attr) : Nat :=
  (attrsNamed n attrs).length

/-- The box loop of app.py lines 413-438 for one rule: walk the track's
boxes (position `i` onwards), rewriting the matching attributes of each
box selected by the scope.  `frames` is the whole track's parsed frame
list, needed by the (spec-modelled) `firstN` scope. -/
def mutateBoxes (r : Rule) (frames : List Int) : Nat → List Box → List Box
  | _, [] => []
  | i, b :: bs =>
    (if boxMatches r.pred frames i (frameIdx b) then
       ⟨b.frame, rewriteAttrs r.attrName r.newVal b.attrs⟩
     else b) :: mutateBoxes r frames (i + 1) bs

/-- The number of box-level writes the box loop performs: one per
matching attribute of each selected box. -/
def countBoxWrites (r : Rule) (frames : List Int) : Nat → List Box → Nat
  | _, [] => 0
  | i, b :: bs =>
    (if boxMatches r.pred frames i (frameIdx b) then
       countMatching r.attrName b.attrs
     else 0) + countBoxWrites r frames (i + 1) bs

/-- Apply one rule to one (already targeted) track: rewrite every
track-level attribute of the matching name unconditionally (app.py
lines 406-411), and rewrite box-level attributes only in boxes selected
by the scope (lines 413-438).  Returns the new track together with the
number of track-level and box-level writes. -/
def applyRuleToTrack (r : Rule) (t : Track) : Track × Nat × Nat :=
  (⟨t.id, t.label, rewriteAttrs r.attrName r.newVal t.attrs,
      mutateBoxes r (t.boxes.map frameIdx) 0 t.boxes⟩,
   countMatching r.attrName t.attrs,
   countBoxWrites r (t.boxes.map frameIdx) 0 t.boxes)

/-- Apply the rule list, in order, to one track: a rule acts iff the
track's id is in its target set (`if t_id not in selected_track_ids:
continue`, app.py lines 357-358, lifted per rule).  Returns the final
track and the summed track-level and box-level write counts. -/
def applyRulesToTrack : List Rule → Track → Track × Nat × Nat
  | [], t => (t, 0, 0)
  | r :: rs, t =>
    if t.id ∈ r.targets then
      let s1 := applyRuleToTrack r t
      let s2 := applyRulesToTrack rs s1.1
      (s2.1, s1.2.1 + s2.2.1, s1.2.2 + s2.2.2)
    else applyRulesToTrack rs t

/-- The three counters reported by the engine (app.py lines 352-354,
445-450). -/
structure ChangeCounters where
  tracksChanged : Nat
  trackAttrsChanged : Nat
  boxAttrsChanged : Nat
deriving Repr, DecidableEq

/-- The mutation engine: apply the rule list to every track of the
document (app.py lines 356-441).  A track counts as changed iff at
least one write happened inside it across all rules (`track_changed`,
lines 361, 411, 438, 440-441); the attribute counters sum every
individual write. -/
def applyRules (rules : List Rule) : Doc → Doc × ChangeCounters
  | [] => ([], ⟨0, 0, 0⟩)
  | t :: ts =>
    let s := applyRulesToTrack rules t
    let rest := applyRules rules ts
    (s.1 :: rest.1,
     ⟨(if 0 < s.2.1 + s.2.2 then 1 else 0) + rest.2.tracksChanged,
      s.2.1 + rest.2.trackAttrsChanged,
      s.2.2 + rest.2.boxAttrsChanged⟩)

/-! ### Preservation lemmas -/

theorem setAttr_name (n v : String) (a : Attr) : (setAttr n v a).name = a.name := by
  unfold setAttr; split <;> rfl

theorem attrsNamed_rewriteAttrs (m n v : String) (l : List Attr) :
    attrsNamed m (rewriteAttrs n v l) = (attrsNamed m l).map (setAttr n v) := by
  induction l with
  | nil => rfl
  | cons a l ih =>
    by_cases h : a.name = some m
    · simp [rewriteAttrs, attrsNamed, List.filter_cons, setAttr_name, h] at *
      exact ih
    · simp [rewriteAttrs, attrsNamed, List.filter_cons, setAttr_name, h] at *
      exact ih

theorem countMatching_rewriteAttrs (m n v : String) (l : List Attr) :
    countMatching m (rewriteAttrs n v l) = countMatching m l := by
  unfold countMatching
  rw [attrsNamed_rewriteAttrs, List.length_map]

theorem attrsNamed_mem_name (m : String) (l : List Attr) (a : Attr)
    (h : a ∈ attrsNamed m l) : a.name = some m := by
  unfold attrsNamed at h
  simpa using (List.mem_filter.mp h).2

theorem attrsNamed_rewriteAttrs_ne (m n v : String) (h : m ≠ n) (l : List Attr) :
    attrsNamed m (rewriteAttrs n v l) = attrsNamed m l := by
  rw [attrsNamed_rewriteAttrs]
  conv_rhs => rw [← List.map_id (attrsNamed m l)]
  apply List.map_congr_left
  intro a ha
  have hn := attrsNamed_mem_name m l a ha
  unfold setAttr
  rw [hn, if_neg (by simp [h])]
  rfl

theorem attrsNamed_rewriteAttrs_self (n v : String) (l : List Attr) :
    attrsNamed n (rewriteAttrs n v l)
      = (attrsNamed n l).map (fun a => ⟨a.name, v⟩) := by
  rw [attrsNamed_rewriteAttrs]
  apply List.map_congr_left
  intro a ha
  have hn := attrsNamed_mem_name n l a ha
  unfold setAttr
  simp [hn]

theorem frameIdx_rewrite (r : Rule) (b : Box) :
    frameIdx ⟨b.frame, rewriteAttrs r.attrName r.newVal b.attrs⟩ = frameIdx b := rfl

theorem mutateBoxes_frames (r : Rule) (fr : List Int) (i : Nat) (bs : List Box) :
    (mutateBoxes r fr i bs).map frameIdx = bs.map frameIdx := by
  induction bs generalizing i with
  | nil => rfl
  | cons b bs ih =>
    simp only [mutateBoxes, List.map_cons, ih]
    split <;> rfl

theorem countBoxWrites_mutateBoxes (q r : Rule) (fr fr2 : List Int) (i : Nat)
    (bs : List Box) :
    countBoxWrites q fr i (mutateBoxes r fr2 i bs) = countBoxWrites q fr i bs := by
  induction bs generalizing i with
  | nil => rfl
  | cons b bs ih =>
    simp only [mutateBoxes, countBoxWrites, ih]
    by_cases h : boxMatches r.pred fr2 i (frameIdx b) = true
    · simp only [if_pos h, frameIdx_rewrite, countBoxWrites,
        countMatching_rewriteAttrs, ih]
    · simp only [if_neg h, countBoxWrites, ih]

theorem applyRuleToTrack_id (r : Rule) (t : Track) :
    ((applyRuleToTrack r t).1).id = t.id := rfl

theorem applyRuleToTrack_attrs (r : Rule) (t : Track) :
    ((applyRuleToTrack r t).1).attrs = rewriteAttrs r.attrName r.newVal t.attrs := rfl

theorem applyRuleToTrack_frames (r : Rule) (t : Track) :
    ((applyRuleToTrack r t).1).boxes.map frameIdx = t.boxes.map frameIdx := by
  show (mutateBoxes r (t.boxes.map frameIdx) 0 t.boxes).map frameIdx = t.boxes.map frameIdx
  exact mutateBoxes_frames r (t.boxes.map frameIdx) 0 t.boxes

theorem applyRuleToTrack_countBoxWrites (q r : Rule) (t : Track) :
    countBoxWrites q (((applyRuleToTrack r t).1).boxes.map frameIdx) 0
        ((applyRuleToTrack r t).1).boxes
      = countBoxWrites q (t.boxes.map frameIdx) 0 t.boxes := by
  rw [applyRuleToTrack_frames]
  exact countBoxWrites_mutateBoxes q r (t.boxes.map frameIdx) (t.boxes.map frameIdx) 0 t.boxes

theorem applyRulesToTrack_id (rs : List Rule) (t : Track) :
    ((applyRulesToTrack rs t).1).id = t.id := by
  induction rs generalizing t with
  | nil => rfl
  | cons r rs ih =>
    unfold applyRulesToTrack
    by_cases h : t.id ∈ r.targets
    · simp only [if_pos h]
      exact ih ((applyRuleToTrack r t).1)
    · simp only [if_neg h]
      exact ih t

theorem applyRulesToTrack_trackWrites (rs : List Rule) (t : Track) :
    (applyRulesToTrack rs t).2.1
      = ((rs.filter (fun r => t.id ∈ r.targets)).map
          (fun r => countMatching r.attrName t.attrs)).sum := by
  induction rs generalizing t with
  | nil => rfl
  | cons r rs ih =>
    unfold applyRulesToTrack
    by_cases h : t.id ∈ r.targets
    · rw [if_pos h, List.filter_cons, if_pos (decide_eq_true h),
        List.map_cons, List.sum_cons]
      show (applyRuleToTrack r t).2.1
          + (applyRulesToTrack rs (applyRuleToTrack r t).1).2.1 = _
      rw [ih ((applyRuleToTrack r t).1)]
      simp only [applyRuleToTrack_id, applyRuleToTrack_attrs,
        countMatching_rewriteAttrs]
      rfl
    · rw [if_neg h, List.filter_cons,
        if_neg (fun hc => h (of_decide_eq_true hc))]
      exact ih t

theorem applyRulesToTrack_boxWrites (rs : List Rule) (t : Track) :
    (applyRulesToTrack rs t).2.2
      = ((rs.filter (fun r => t.id ∈ r.targets)).map
          (fun r => countBoxWrites r (t.boxes.map frameIdx) 0 t.boxes)).sum := by
  induction rs generalizing t with
  | nil => rfl
  | cons r rs ih =>
    unfold applyRulesToTrack
    by_cases h : t.id ∈ r.targets
    · rw [if_pos h, List.filter_cons, if_pos (decide_eq_true h),
        List.map_cons, List.sum_cons]
      show (applyRuleToTrack r t).2.2
          + (applyRulesToTrack rs (applyRuleToTrack r t).1).2.2 = _
      rw [ih ((applyRuleToTrack r t).1)]
      simp only [applyRuleToTrack_id, applyRuleToTrack_countBoxWrites]
      rfl
    · rw [if_neg h, List.filter_cons,
        if_neg (fun hc => h (of_decide_eq_true hc))]
      exact ih t

theorem applyRules_tracksChanged (rules : List Rule) (doc : Doc) :
    (applyRules rules doc).2.tracksChanged
      = (doc.filter (fun t =>
          0 < (applyRulesToTrack rules t).2.1 + (applyRulesToTrack rules t).2.2)).length := by
  induction doc with
  | nil => rfl
  | cons t ts ih =>
    unfold applyRules
    show (if 0 < (applyRulesToTrack rules t).2.1 + (applyRulesToTrack rules t).2.2
        then 1 else 0) + (applyRules rules ts).2.tracksChanged = _
    rw [List.filter_cons, ih]
    by_cases h : 0 < (applyRulesToTrack rules t).2.1 + (applyRulesToTrack rules t).2.2
    · rw [if_pos h, if_pos (decide_eq_true h), List.length_cons, Nat.add_comm]
    · rw [if_neg h, if_neg (fun hc => h (of_decide_eq_true hc)), Nat.zero_add]

theorem applyRules_trackAttrs (rules : List Rule) (doc : Doc) :
    (applyRules rules doc).2.trackAttrsChanged
      = (doc.map (fun t => ((rules.filter (fun r => t.id ∈ r.targets)).map
          (fun r => countMatching r.attrName t.attrs)).sum)).sum := by
  induction doc with
  | nil => rfl
  | cons t ts ih =>
    unfold applyRules
    simp only [List.map_cons, List.sum_cons, ih, applyRulesToTrack_trackWrites]

theorem applyRules_boxAttrs (rules : List Rule) (doc : Doc) :
    (applyRules rules doc).2.boxAttrsChanged
      = (doc.map (fun t => ((rules.filter (fun r => t.id ∈ r.targets)).map
          (fun r => countBoxWrites r (t.boxes.map frameIdx) 0 t.boxes)).sum)).sum := by
  induction doc with
  | nil => rfl
  | cons t ts ih =>
    unfold applyRules
    simp only [List.map_cons, List.sum_cons, ih, applyRulesToTrack_boxWrites]

theorem mutateBoxes_attrsNamed_ne (r : Rule) (name : String)
    (h : r.attrName ≠ name) (fr : List Int) (i : Nat) (bs : List Box) :
    (mutateBoxes r fr i bs).map (fun b => attrsNamed name b.attrs)
      = bs.map (fun b => attrsNamed name b.attrs) := by
  induction bs generalizing i with
  | nil => rfl
  | cons b bs ih =>
    simp only [mutateBoxes, List.map_cons, ih]
    by_cases hm : boxMatches r.pred fr i (frameIdx b) = true
    · simp only [if_pos hm]
      rw [attrsNamed_rewriteAttrs_ne name r.attrName r.newVal (Ne.symm h)]
    · simp only [if_neg hm]

theorem applyRuleToTrack_other_names (r : Rule) (name : String)
    (h : r.attrName ≠ name) (t : Track) :
    attrsNamed name ((applyRuleToTrack r t).1).attrs = attrsNamed name t.attrs ∧
    ((applyRuleToTrack r t).1).boxes.map (fun b => attrsNamed name b.attrs)
      = t.boxes.map (fun b => attrsNamed name b.attrs) := by
  constructor
  · rw [applyRuleToTrack_attrs]
    exact attrsNamed_rewriteAttrs_ne name r.attrName r.newVal (Ne.symm h) t.attrs
  · exact mutateBoxes_attrsNamed_ne r name h (t.boxes.map frameIdx) 0 t.boxes

theorem applyRulesToTrack_other_names (rs : List Rule) (name : String)
    (h : ∀ r ∈ rs, r.attrName ≠ name) (t : Track) :
    attrsNamed name ((applyRulesToTrack rs t).1).attrs = attrsNamed name t.attrs ∧
    ((applyRulesToTrack rs t).1).boxes.map (fun b => attrsNamed name b.attrs)
      = t.boxes.map (fun b => attrsNamed name b.attrs) := by
  induction rs generalizing t with
  | nil => exact ⟨rfl, rfl⟩
  | cons r rs ih =>
    have hr : r.attrName ≠ name := h r (by simp)
    have hrs : ∀ r' ∈ rs, r'.attrName ≠ name := fun r' hr' => h r' (by simp [hr'])
    unfold applyRulesToTrack
    by_cases hm : t.id ∈ r.targets
    · simp only [if_pos hm]
      have h1 := applyRuleToTrack_other_names r name hr t
      have h2 := ih hrs ((applyRuleToTrack r t).1)
      exact ⟨h2.1.trans h1.1, h2.2.trans h1.2⟩
    · simp only [if_neg hm]
      exact ih hrs t

/-- Claim C1: for every rule and targeted track, every track-level
attribute whose name equals the rule's attribute name is set to the
rule's new value, unconditionally and irrespective of the frame
predicate; AllFrames, SingleRange(5,5) and an empty MultiRange produce
the same track-level result. -/
theorem track_level_write_unconditional (tg : List String) (n v : String)
    (p : FramePredicate) (t : Track) :
    ((applyRuleToTrack ⟨tg, n, v, p⟩ t).1).attrs = rewriteAttrs n v t.attrs ∧
    attrsNamed n ((applyRuleToTrack ⟨tg, n, v, p⟩ t).1).attrs
      = (attrsNamed n t.attrs).map (fun a => ⟨a.name, v⟩) ∧
    ((applyRuleToTrack ⟨tg, n, v, .allFrames⟩ t).1).attrs
      = ((applyRuleToTrack ⟨tg, n, v, .singleRange 5 5⟩ t).1).attrs ∧
    ((applyRuleToTrack ⟨tg, n, v, .allFrames⟩ t).1).attrs
      = ((applyRuleToTrack ⟨tg, n, v, .multiRange []⟩ t).1).attrs := by
  refine ⟨rfl, ?_, rfl, rfl⟩
  rw [applyRuleToTrack_attrs]
  exact attrsNamed_rewriteAttrs_self n v t.attrs

/-- Claim C2: SingleRange(start,end) matches a box exactly when
start ≤ frame ≤ end, inclusive at both ends; SingleRange(3,7) matches
frames 3 and 7 and rejects frames 2 and 8. -/
theorem single_range_inclusive_bounds (s e : Nat) (fr : List Int) (i : Nat)
    (b : Box) :
    (boxMatches (.singleRange s e) fr i (frameIdx b) = true ↔
      (s : Int) ≤ frameIdx b ∧ frameIdx b ≤ (e : Int)) ∧
    boxMatches (.singleRange 3 7) fr i (frameIdx ⟨some ("3"), []⟩) = true ∧
    boxMatches (.singleRange 3 7) fr i (frameIdx ⟨some ("7"), []⟩) = true ∧
    boxMatches (.singleRange 3 7) fr i (frameIdx ⟨some ("2"), []⟩) = false ∧
    boxMatches (.singleRange 3 7) fr i (frameIdx ⟨some ("8"), []⟩) = false := by
  refine ⟨?_, rfl, rfl, rfl, rfl⟩
  simp [boxMatches, inRanges]

/-- Witness for C2: frame 5 lies inside SingleRange(3,7). -/
theorem single_range_inclusive_bounds_witness :
    boxMatches (.singleRange 3 7) [] 0 (frameIdx ⟨some ("5"), []⟩) = true :=
  (single_range_inclusive_bounds 3 7 [] 0 ⟨some ("5"), []⟩).1.mpr (by decide)

/-- Claim C3: MultiRange membership is the union (logical OR) of its
ranges, and each matched box's matching attribute is written exactly
once per rule (its value becomes the rule's new value); over boxes at
frames 0, 3, 6, 11, MultiRange([(0,5),(3,10)]) modifies exactly the
boxes at frames 0, 3 and 6. -/
theorem multi_range_is_union (rs : List (Nat × Nat)) (fr : List Int) (i : Nat)
    (b : Box) :
    (boxMatches (.multiRange rs) fr i (frameIdx b) = true ↔
      ∃ pr ∈ rs, (pr.1 : Int) ≤ frameIdx b ∧ frameIdx b ≤ (pr.2 : Int)) ∧
    applyRules [⟨["1"], "A", "new", .multiRange [(0, 5), (3, 10)]⟩]
        [⟨"1", "L", [],
          [⟨some ("0"), [⟨some ("A"), "old"⟩]⟩, ⟨some ("3"), [⟨some ("A"), "old"⟩]⟩,
           ⟨some ("6"), [⟨some ("A"), "old"⟩]⟩, ⟨some ("11"), [⟨some ("A"), "old"⟩]⟩]⟩]
      = ([⟨"1", "L", [],
          [⟨some ("0"), [⟨some ("A"), "new"⟩]⟩, ⟨some ("3"), [⟨some ("A"), "new"⟩]⟩,
           ⟨some ("6"), [⟨some ("A"), "new"⟩]⟩, ⟨some ("11"), [⟨some ("A"), "old"⟩]⟩]⟩],
         ⟨1, 0, 3⟩) := by
  constructor
  · simp [boxMatches, inRanges]
  · decide

/-- Witness for C3: frame 6 lies inside the (3,10) range of the union. -/
theorem multi_range_is_union_witness :
    boxMatches (.multiRange [(0, 5), (3, 10)]) [] 0
        (frameIdx ⟨some ("6"), []⟩) = true :=
  (multi_range_is_union [(0, 5), (3, 10)] [] 0 ⟨some ("6"), []⟩).1.mpr
    ⟨(3, 10), by decide, by decide⟩

/-- Claim C4 (spec-modelled FirstN): the FirstN(n) predicate is
rank-based and per-track — after stably sorting the track's boxes
ascending by frame, a box matches iff it is among the first n; over
boxes at frames [10, 20, 30, 5], FirstN(2) matches exactly the boxes at
frames 5 and 10 (original positions 3 and 0), not the frames below 2. -/
theorem first_n_rank_based :
    firstNIndices [10, 20, 30, 5] 2 = [3, 0] ∧
    applyRules [⟨["1"], "A", "new", .firstN 2⟩]
        [⟨"1", "L", [],
          [⟨some ("10"), [⟨some ("A"), "old"⟩]⟩, ⟨some ("20"), [⟨some ("A"), "old"⟩]⟩,
           ⟨some ("30"), [⟨some ("A"), "old"⟩]⟩, ⟨some ("5"), [⟨some ("A"), "old"⟩]⟩]⟩]
      = ([⟨"1", "L", [],
          [⟨some ("10"), [⟨some ("A"), "new"⟩]⟩, ⟨some ("20"), [⟨some ("A"), "old"⟩]⟩,
           ⟨some ("30"), [⟨some ("A"), "old"⟩]⟩, ⟨some ("5"), [⟨some ("A"), "new"⟩]⟩]⟩],
         ⟨1, 0, 2⟩) := by
  exact ⟨by decide, by decide⟩

/-- Claim C7: a box whose frame XML attribute is missing or not
parsable as an integer is treated as frame 0 when evaluating frame
predicates; evaluation is total (never raises). -/
theorem malformed_frame_defaults_zero (s : String) (attrs : List Attr)
    (p : FramePredicate) (fr : List Int) (i : Nat) :
    frameIdx ⟨none, attrs⟩ = 0 ∧
    (parseInt? s = none → frameIdx ⟨some s, attrs⟩ = 0) ∧
    (parseInt? s = none →
      boxMatches p fr i (frameIdx ⟨some s, attrs⟩) = boxMatches p fr i 0) := by
  refine ⟨rfl, ?_, ?_⟩ <;> intro h <;> simp [frameIdx, h]

/-- Witness for C7 at the concrete unparsable frame string `"abc"`. -/
theorem malformed_frame_defaults_zero_witness :
    parseInt? ("abc") = none ∧ frameIdx ⟨some ("abc"), []⟩ = 0 :=
  ⟨by decide,
   (malformed_frame_defaults_zero ("abc") [] .allFrames [] 0).2.1 (by decide)⟩

/-- Claim C5: tracks-changed is the number of distinct tracks with at
least one write (not summed across rules); the track-level and
box-level attribute counters sum every individual write, each rule's
writes counted even when several rules touch the same attribute (the
per-rule count is always the count against the original track, since
rewriting never changes names or frames). -/
theorem counters_semantics (rules : List Rule) (doc : Doc) :
    (applyRules rules doc).2.tracksChanged
      = (doc.filter (fun t =>
          0 < (applyRulesToTrack rules t).2.1 + (applyRulesToTrack rules t).2.2)).length ∧
    (applyRules rules doc).2.trackAttrsChanged
      = (doc.map (fun t => ((rules.filter (fun r => t.id ∈ r.targets)).map
          (fun r => countMatching r.attrName t.attrs)).sum)).sum ∧
    (applyRules rules doc).2.boxAttrsChanged
      = (doc.map (fun t => ((rules.filter (fun r => t.id ∈ r.targets)).map
          (fun r => countBoxWrites r (t.boxes.map frameIdx) 0 t.boxes)).sum)).sum :=
  ⟨applyRules_tracksChanged rules doc, applyRules_trackAttrs rules doc,
   applyRules_boxAttrs rules doc⟩

/-- Claim C6: a rule whose target set contains no id present in the
document is a silent no-op — the document is returned unchanged and
all three counters are zero. -/
theorem unknown_target_noop (r : Rule) (doc : Doc)
    (h : ∀ t ∈ doc, t.id ∉ r.targets) :
    applyRules [r] doc = (doc, ⟨0, 0, 0⟩) := by
  induction doc with
  | nil => rfl
  | cons t ts ih =>
    have ht : t.id ∉ r.targets := h t (by simp)
    have hrest := ih (fun t' ht' => h t' (by simp [ht']))
    have hskip : applyRulesToTrack [r] t = (t, 0, 0) := by
      unfold applyRulesToTrack
      rw [if_neg ht]
      rfl
    show ((applyRulesToTrack [r] t).1 :: (applyRules [r] ts).1,
      (⟨(if 0 < (applyRulesToTrack [r] t).2.1 + (applyRulesToTrack [r] t).2.2
          then 1 else 0) + (applyRules [r] ts).2.tracksChanged,
        (applyRulesToTrack [r] t).2.1 + (applyRules [r] ts).2.trackAttrsChanged,
        (applyRulesToTrack [r] t).2.2 + (applyRules [r] ts).2.boxAttrsChanged⟩
        : ChangeCounters))
      = (t :: ts, ⟨0, 0, 0⟩)
    rw [hskip, hrest]
    simp

/-- Witness for C6: a rule targeting only `"nonexistent"` against a
document with tracks `"1"` and `"2"` changes nothing and reports zero
counters. -/
theorem unknown_target_noop_witness :
    (∀ t ∈ ([⟨"1", "L", [⟨some ("A"), "x"⟩], []⟩, ⟨"2", "M", [], []⟩] : Doc),
      t.id ∉ ["nonexistent"]) ∧
    applyRules [⟨["nonexistent"], "A", "new", .allFrames⟩]
        [⟨"1", "L", [⟨some ("A"), "x"⟩], []⟩, ⟨"2", "M", [], []⟩]
      = ([⟨"1", "L", [⟨some ("A"), "x"⟩], []⟩, ⟨"2", "M", [], []⟩], ⟨0, 0, 0⟩) :=
  ⟨by decide, unknown_target_noop _ _ (by decide)⟩

/-- Claim C8: when one element holds several attribute children sharing
the rule's attribute name, the engine rewrites every match, not only
the first — at track level (the rewritten attribute list), at box
level (a matched box gets all its matching children rewritten), and in
general every member of a rewritten attribute list whose name matches
carries the new value. -/
theorem duplicate_attr_names_all_rewritten (r : Rule) (t : Track)
    (fr : List Int) (i : Nat) (b : Box) (bs : List Box) :
    (∀ a ∈ ((applyRuleToTrack r t).1).attrs,
      a.name = some r.attrName → a.value = r.newVal) ∧
    (boxMatches r.pred fr i (frameIdx b) = true →
      mutateBoxes r fr i (b :: bs)
        = ⟨b.frame, rewriteAttrs r.attrName r.newVal b.attrs⟩
            :: mutateBoxes r fr (i + 1) bs) ∧
    (∀ (n v : String) (attrs : List Attr), ∀ a ∈ rewriteAttrs n v attrs,
      a.name = some n → a.value = v) := by
  have hall : ∀ (n v : String) (attrs : List Attr), ∀ a ∈ rewriteAttrs n v attrs,
      a.name = some n → a.value = v := by
    intro n v attrs a ha hn
    rcases List.mem_map.mp ha with ⟨a0, _, rfl⟩
    unfold setAttr at hn ⊢
    by_cases h0 : a0.name = some n
    · rw [if_pos h0]
    · rw [if_neg h0] at hn
      exact absurd hn h0
  refine ⟨?_, ?_, hall⟩
  · rw [applyRuleToTrack_attrs]
    exact hall r.attrName r.newVal t.attrs
  · intro hm
    show (if boxMatches r.pred fr i (frameIdx b) = true then
        (⟨b.frame, rewriteAttrs r.attrName r.newVal b.attrs⟩ : Box) else b)
        :: mutateBoxes r fr (i + 1) bs
      = ⟨b.frame, rewriteAttrs r.attrName r.newVal b.attrs⟩
          :: mutateBoxes r fr (i + 1) bs
    rw [if_pos hm]

/-- Witness for C8: a box carrying two attributes named `"A"` is
matched, and both children are rewritten to the new value. -/
theorem duplicate_attr_names_all_rewritten_witness :
    boxMatches FramePredicate.allFrames [] 0
        (frameIdx ⟨some ("0"), [⟨some ("A"), "p"⟩, ⟨some ("A"), "q"⟩]⟩) = true ∧
    mutateBoxes ⟨["1"], "A", "new", .allFrames⟩ [] 0
        [⟨some ("0"), [⟨some ("A"), "p"⟩, ⟨some ("A"), "q"⟩]⟩]
      = [⟨some ("0"), rewriteAttrs ("A") ("new") [⟨some ("A"), "p"⟩, ⟨some ("A"), "q"⟩]⟩] ∧
    (setAttr ("A") ("new") ⟨some ("A"), "q"⟩).value = "new" :=
  ⟨rfl,
   (duplicate_attr_names_all_rewritten ⟨["1"], "A", "new", .allFrames⟩
      ⟨"1", "L", [], []⟩ [] 0 ⟨some ("0"), [⟨some ("A"), "p"⟩, ⟨some ("A"), "q"⟩]⟩
      []).2.1 rfl,
   (duplicate_attr_names_all_rewritten ⟨["1"], "A", "new", .allFrames⟩
      ⟨"1", "L", [], []⟩ [] 0 ⟨some ("0"), []⟩ []).2.2 ("A") ("new")
      [⟨some ("A"), "p"⟩, ⟨some ("A"), "q"⟩] (setAttr ("A") ("new") ⟨some ("A"), "q"⟩)
      (by decide) (by decide)⟩

/-- Claim C9: after apply, every attribute whose name is not the
attribute name of any rule keeps its original value, at track level
and inside every box of every track. -/
theorem untouched_attrs_survive (rules : List Rule) (doc : Doc)
    (name : String) (h : ∀ r ∈ rules, r.attrName ≠ name) :
    ((applyRules rules doc).1).map (fun t =>
        (attrsNamed name t.attrs, t.boxes.map (fun b => attrsNamed name b.attrs)))
      = doc.map (fun t =>
        (attrsNamed name t.attrs, t.boxes.map (fun b => attrsNamed name b.attrs))) := by
  induction doc with
  | nil => rfl
  | cons t ts ih =>
    show ((applyRulesToTrack rules t).1 :: (applyRules rules ts).1).map
        (fun t => (attrsNamed name t.attrs,
          t.boxes.map (fun b => attrsNamed name b.attrs)))
      = (t :: ts).map (fun t => (attrsNamed name t.attrs,
          t.boxes.map (fun b => attrsNamed name b.attrs)))
    rw [List.map_cons, List.map_cons, ih]
    have hp := applyRulesToTrack_other_names rules name h t
    rw [hp.1, hp.2]

/-- Witness for C9: a rule touching only `"Visibility"` leaves every
`"Occluded"` attribute, track-level and box-level, unchanged. -/
theorem untouched_attrs_survive_witness :
    (∀ r ∈ ([⟨["1"], "Visibility", "81-100%", .allFrames⟩] : List Rule),
      r.attrName ≠ "Occluded") ∧
    ((applyRules [⟨["1"], "Visibility", "81-100%", .allFrames⟩]
        [⟨"1", "L", [⟨some ("Visibility"), "0-20%"⟩, ⟨some ("Occluded"), "no"⟩],
          [⟨some ("0"), [⟨some ("Occluded"), "yes"⟩]⟩]⟩]).1).map (fun t =>
        (attrsNamed ("Occluded") t.attrs,
         t.boxes.map (fun b => attrsNamed ("Occluded") b.attrs)))
      = ([⟨"1", "L", [⟨some ("Visibility"), "0-20%"⟩, ⟨some ("Occluded"), "no"⟩],
          [⟨some ("0"), [⟨some ("Occluded"), "yes"⟩]⟩]⟩] : Doc).map (fun t =>
        (attrsNamed ("Occluded") t.attrs,
         t.boxes.map (fun b => attrsNamed ("Occluded") b.attrs))) :=
  ⟨by decide, untouched_attrs_survive _ _ _ (by decide)⟩

/-- Claim C10: the counters count writes, not value differences — a
rule whose new value already equals the attribute's value still counts
the write and the track, so the engine reports nonzero counters while
the document is unchanged. -/
theorem counters_count_writes_not_diffs :
    applyRules [⟨["1"], "A", "v", .allFrames⟩] [⟨"1", "L", [⟨some ("A"), "v"⟩], []⟩]
      = ([⟨"1", "L", [⟨some ("A"), "v"⟩], []⟩], ⟨1, 1, 0⟩) := by decide

end CVAT
